import Mathlib

/-!
# Nova Max admin console — realtime synchronization core

Shallow embedding of the realtime order/driver synchronization layer of the
Nova Max store panel (Next.js client).  The source consists of several
near-identical page variants:

* `src/src/app/page.tsx` (first component, "page variant") — the variant most
  claims cite;
* `src/unnamed/part_001` — a sibling variant with the same reconciler code;
* `src/src/app/manifest.ts` (second embedded component, "multi-store variant")
  — the only variant that filters realtime events by `store_id` and that sorts
  the displayed order list.

JavaScript values are embedded as follows: nullable strings become
`Option String` (`none` = `null`/absent), nullable numbers become `Option ℚ`
(JS numbers in these fields are ordinary finite doubles), a JS `Map` keyed by
string becomes an association list with the `set`/`delete`/`get` operations of
`Map` (insertion order preserved, `set` overwrites in place), and a JS object
spread `{...prev, ...incoming}` becomes a field-wise `Option.getD`.
-/

namespace NovaMax

/-- The `Order` record type of the client (`type Order` in every variant). -/
structure Order where
  id : String
  store_id : Option String := none
  driver_id : Option String := none
  customer_name : Option String := none
  customer_location_text : Option String := none
  order_type : Option String := none
  receiver_name : Option String := none
  payout_method : Option String := none
  price : Option ℚ := none
  delivery_fee : Option ℚ := none
  status : Option String := none
  created_at : Option String := none
  delivered_at : Option String := none
deriving Repr, DecidableEq

/-- A `Partial<Order> & { id: string }` value: every field except `id` may be
absent (outer `none` = key not present in the object), and when present still
carries the nullable JS value (inner `Option`).  An absent key does not
overwrite on spread; a present key does, even when its value is `null`. -/
structure OrderPatch where
  id : String
  store_id : Option (Option String) := none
  driver_id : Option (Option String) := none
  customer_name : Option (Option String) := none
  customer_location_text : Option (Option String) := none
  order_type : Option (Option String) := none
  receiver_name : Option (Option String) := none
  payout_method : Option (Option String) := none
  price : Option (Option ℚ) := none
  delivery_fee : Option (Option ℚ) := none
  status : Option (Option String) := none
  created_at : Option (Option String) := none
  delivered_at : Option (Option String) := none
deriving Repr, DecidableEq

/-- JS spread `{ ...prev, ...incoming }`: keys present in the patch overwrite,
absent keys keep the previous value. -/
def mergeOrder (prev : Order) (p : OrderPatch) : Order where
  id := p.id
  store_id := p.store_id.getD prev.store_id
  driver_id := p.driver_id.getD prev.driver_id
  customer_name := p.customer_name.getD prev.customer_name
  customer_location_text := p.customer_location_text.getD prev.customer_location_text
  order_type := p.order_type.getD prev.order_type
  receiver_name := p.receiver_name.getD prev.receiver_name
  payout_method := p.payout_method.getD prev.payout_method
  price := p.price.getD prev.price
  delivery_fee := p.delivery_fee.getD prev.delivery_fee
  status := p.status.getD prev.status
  created_at := p.created_at.getD prev.created_at
  delivered_at := p.delivered_at.getD prev.delivered_at

/-- The unchecked cast `incoming as Order` used on the prepend path of
`upsertOrder`: keys absent from the partial read back as `undefined`, which the
rest of the client treats like `null`. -/
def patchToOrder (p : OrderPatch) : Order where
  id := p.id
  store_id := p.store_id.join
  driver_id := p.driver_id.join
  customer_name := p.customer_name.join
  customer_location_text := p.customer_location_text.join
  order_type := p.order_type.join
  receiver_name := p.receiver_name.join
  payout_method := p.payout_method.join
  price := p.price.join
  delivery_fee := p.delivery_fee.join
  status := p.status.join
  created_at := p.created_at.join
  delivered_at := p.delivered_at.join

/-! ## Connection Manager: reconnect backoff (`socket.onopen` / `socket.onclose`) -/

/-- The `retry` counter captured by the connection effect. -/
structure ConnState where
  retry : Nat
deriving Repr, DecidableEq

/-- `socket.onopen`: `retry = 0`. -/
def onOpen (_c : ConnState) : ConnState := ⟨0⟩

/-- The delay computed in `socket.onclose`:
`Math.min(30000, 1000 * 2 ** retry)`. -/
def closeDelay (retry : Nat) : Nat := min 30000 (1000 * 2 ^ retry)

/-- `socket.onclose` while the effect is active: schedule a reconnect after
`closeDelay` and increment `retry`.  Returns the new state and the scheduled
delay in milliseconds. -/
def onClose (c : ConnState) : ConnState × Nat :=
  (⟨c.retry + 1⟩, closeDelay c.retry)

/-- State after `n` consecutive close events starting from `c`, with no
intervening open. -/
def closesFrom (c : ConnState) : Nat → ConnState
  | 0 => c
  | n + 1 => (onClose (closesFrom c n)).1

/-! ## JS `Map<string, number>` as an insertion-ordered association list -/

/-- `Map.get(k)`: value of the unique entry for `k`, if any. -/
def mapGet : List (String × Nat) → String → Option Nat
  | [], _ => none
  | e :: rest, k => if e.1 == k then some e.2 else mapGet rest k

/-- `Map.set(k, v)`: overwrite the entry for `k` in place when it exists
(insertion order kept), else append a new entry. -/
def mapSet : List (String × Nat) → String → Nat → List (String × Nat)
  | [], k, v => [(k, v)]
  | e :: rest, k, v => if e.1 == k then (k, v) :: rest else e :: mapSet rest k v

/-- `Map.delete(k)`. -/
def mapDelete (m : List (String × Nat)) (k : String) : List (String × Nat) :=
  m.filter (fun e => e.1 != k)

/-- A well-formed JS `Map` has at most one entry per key. -/
def keysNodup (m : List (String × Nat)) : Prop :=
  (m.map Prod.fst).Nodup

/-! ## Order Reconciler (`flashOrder`, `applyOrders`, `upsertOrder`, `fetchOrders`) -/

/-- The flash-highlight bookkeeping of a panel component: the `flashIds` set,
the `flashTimers` ref (`Map<string, number>` from order id to timer handle),
and a counter handing out fresh timer handles (`window.setTimeout` return
values; the browser never reuses a live handle). -/
structure FlashState where
  flashIds : List String
  flashTimers : List (String × Nat)
  nextTimer : Nat
deriving Repr, DecidableEq

/-- Log of the timer side effects performed by a reconciler call:
which timer handles were cancelled (`window.clearTimeout`) and which
`(order id, timer handle, delay ms)` timeouts were scheduled. -/
structure FlashLog where
  cancelled : List Nat
  scheduled : List (String × Nat × Nat)
deriving Repr, DecidableEq

/-- `flashOrder(id)`: add `id` to the flash set, cancel the pending
highlight-clear timer for `id` if one exists, and schedule a fresh 2000 ms
timer recorded in `flashTimers`. -/
def flashOrder (fs : FlashState) (log : FlashLog) (id : String) : FlashState × FlashLog :=
  let fIds := if fs.flashIds.contains id then fs.flashIds else fs.flashIds ++ [id]
  let cancelledNow :=
    match mapGet fs.flashTimers id with
    | some t => [t]
    | none => []
  let t := fs.nextTimer
  (⟨fIds, mapSet fs.flashTimers id t, t + 1⟩,
    ⟨log.cancelled ++ cancelledNow, log.scheduled ++ [(id, t, 2000)]⟩)

/-- The 2000 ms timeout body scheduled by `flashOrder`: remove the id from the
flash set and drop its `flashTimers` entry. -/
def flashTimerFire (fs : FlashState) (id : String) : FlashState :=
  ⟨fs.flashIds.filter (fun x => x != id), mapDelete fs.flashTimers id, fs.nextTimer⟩

/-- User-facing notifications emitted by `applyOrders` (the
`toast.success("طلب جديد ...")` and the status-change `toast.custom`). -/
inductive Notif where
  | newOrder (id : String)
  | statusChange (id : String)
deriving Repr, DecidableEq

/-- State owned by one panel component that the reconciler touches:
the authoritative order list (`ordersRef`/`orders`), the first-load flag
(`hasLoadedRef`), and the flash bookkeeping. -/
structure RecState where
  orders : List Order
  hasLoaded : Bool
  fs : FlashState
deriving Repr, DecidableEq

/-- `new Map(prev.map((order) => [order.id, order]))` followed by `get`:
the last occurrence of a key wins, as `Map.set` overwrites. -/
def lookupLast (l : List Order) (id : String) : Option Order :=
  l.reverse.find? (fun o => o.id == id)

/-- One iteration of the `for (const order of nextOrders)` loop in
`applyOrders` when `showToasts` is true. -/
def applyStep (prev : List Order) (acc : FlashState × FlashLog × List Notif)
    (o : Order) : FlashState × FlashLog × List Notif :=
  match lookupLast prev o.id with
  | none =>
      let r := flashOrder acc.1 acc.2.1 o.id
      (r.1, r.2, acc.2.2 ++ [Notif.newOrder o.id])
  | some previous =>
      if previous.status ≠ o.status then
        let r := flashOrder acc.1 acc.2.1 o.id
        (r.1, r.2, acc.2.2 ++ [Notif.statusChange o.id])
      else
        acc

/-- `applyOrders(nextOrders, showToasts)`: when `showToasts`, diff `nextOrders`
against the previous list by id, emitting notifications and flashes; then
replace the authoritative list wholesale.  Returns the new state, the emitted
notifications, and the timer log. -/
def applyOrders (st : RecState) (nextOrders : List Order) (showToasts : Bool) :
    RecState × List Notif × FlashLog :=
  let r :=
    if showToasts then
      nextOrders.foldl (applyStep st.orders) (st.fs, ⟨[], []⟩, [])
    else
      (st.fs, ⟨[], []⟩, [])
  (⟨nextOrders, st.hasLoaded, r.1⟩, r.2.2, r.2.1)

/-- The list update inside `upsertOrder`: `findIndex` on id, copy-and-set the
found slot to the spread merge, else prepend `incoming as Order`. -/
def upsertList (current : List Order) (p : OrderPatch) : List Order :=
  if current.any (fun o => o.id == p.id) then
    replaceFirst current p
  else
    patchToOrder p :: current
where
  /-- Replace the first entry whose id matches, leaving the rest in place. -/
  replaceFirst : List Order → OrderPatch → List Order
    | [], _ => []
    | o :: rest, q => if o.id == q.id then mergeOrder o q :: rest else o :: replaceFirst rest q

/-- `upsertOrder(incoming, showToasts)`: merge or prepend, notify only when
`showToasts && hasLoadedRef.current`, then set the loaded flag. -/
def upsertOrder (st : RecState) (p : OrderPatch) (showToasts : Bool := true) :
    RecState × List Notif × FlashLog :=
  let next := upsertList st.orders p
  let shouldToast := showToasts && st.hasLoaded
  let r := applyOrders st next shouldToast
  ({ r.1 with hasLoaded := true }, r.2)

/-- The success path of `fetchOrders(showToasts)` once `data.orders` arrived:
`applyOrders(data.orders, showToasts && hasLoadedRef.current)` then set the
loaded flag. -/
def fetchOrdersSuccess (st : RecState) (orders : List Order) (showToasts : Bool) :
    RecState × List Notif × FlashLog :=
  let r := applyOrders st orders (showToasts && st.hasLoaded)
  ({ r.1 with hasLoaded := true }, r.2)

/-! ## Realtime event dispatch (`handleRealtime`) -/

/-- The fields of an `order_status` push message that `handleRealtime` reads.
`order_id` passed the `typeof payload.order_id === "string"` guard; for the
other fields `none` stands for absent-or-not-a-string, which the handler
coerces to `null`. -/
structure StatusPayload where
  order_id : String
  status : Option String := none
  driver_id : Option String := none
  delivered_at : Option String := none
  store_id : Option String := none
deriving Repr, DecidableEq

/-- The decoded realtime messages that reach the order reconciler. -/
inductive RtEvent where
  | orderCreated (order : Order)
  | orderStatus (p : StatusPayload)
deriving Repr, DecidableEq

/-- The partial built by the `order_status` branch of `handleRealtime`: every
one of `status`, `driver_id`, `delivered_at` is a present key, holding the
payload's string when there is one and `null` otherwise. -/
def statusPatch (p : StatusPayload) : OrderPatch :=
  { id := p.order_id, status := some p.status, driver_id := some p.driver_id,
    delivered_at := some p.delivered_at }

/-- A full `Order` viewed as the argument of `upsertOrder(payload.order)`:
every key is present, so the spread overwrites every field. -/
def orderToPatch (o : Order) : OrderPatch where
  id := o.id
  store_id := some o.store_id
  driver_id := some o.driver_id
  customer_name := some o.customer_name
  customer_location_text := some o.customer_location_text
  order_type := some o.order_type
  receiver_name := some o.receiver_name
  payout_method := some o.payout_method
  price := some o.price
  delivery_fee := some o.delivery_fee
  status := some o.status
  created_at := some o.created_at
  delivered_at := some o.delivered_at

/-- `handleRealtime` of the page variant (`src/src/app/page.tsx`, first
component) and of `src/unnamed/part_001`, restricted to order events: no
`store_id` check is performed. -/
def handleRealtime (st : RecState) (ev : RtEvent) : RecState × List Notif × FlashLog :=
  match ev with
  | .orderCreated order => upsertOrder st (orderToPatch order)
  | .orderStatus p => upsertOrder st (statusPatch p) true

/-- `handleRealtime` of the multi-store variant (second component embedded in
`src/src/app/manifest.ts`): an order event carrying a truthy `store_id`
different from the selected store returns before touching state. -/
def handleRealtimeMS (storeId : String) (st : RecState) (ev : RtEvent) :
    RecState × List Notif × FlashLog :=
  match ev with
  | .orderCreated order =>
      match order.store_id with
      | some s =>
          if s ≠ "" ∧ s ≠ storeId then (st, [], ⟨[], []⟩)
          else handleRealtime st (.orderCreated order)
      | none => handleRealtime st (.orderCreated order)
  | .orderStatus p =>
      match p.store_id with
      | some s =>
          if s ≠ "" ∧ s ≠ storeId then (st, [], ⟨[], []⟩)
          else handleRealtime st (.orderStatus p)
      | none => handleRealtime st (.orderStatus p)

/-! ## Teardown (`useEffect` cleanup of the realtime effect) -/

/-- The resources owned by the realtime `useEffect` closure, together with the
component-level `flashTimers` ref.  `none` / `false` means cleared or closed. -/
structure EffectResources where
  active : Bool
  sourceOpen : Bool
  socketOpen : Bool
  pingTimer : Option Nat
  reconnectTimer : Option Nat
  pollLive : Bool
  flashTimers : List (String × Nat)
deriving Repr, DecidableEq

/-- The cleanup function returned by the realtime effect:
`active = false; source?.close(); socket?.close();` clear `pingTimer`,
`reconnectTimer` and the polling interval.  The `flashTimers` ref is not
touched by this function (no variant clears it on unmount). -/
def cleanup (r : EffectResources) : EffectResources :=
  { r with
    active := false
    sourceOpen := false
    socketOpen := false
    pingTimer := none
    reconnectTimer := none
    pollLive := false }

/-! ## View State -/

/-- The keys of the rows rendered by `orders.map((order) => <tr key={order.id}>)`
in the page variant and in `part_001`: the authoritative list in its stored
order. -/
def displayedOrderRows (orders : List Order) : List String :=
  orders.map (fun o => o.id)

/-- `recentOrders = orders.slice(0, 5)` of `part_001` (no sorting). -/
def recentOrders (orders : List Order) : List Order :=
  orders.take 5

/-- The sort key `a.created_at ? new Date(a.created_at).getTime() : 0` of the
multi-store variant's `sortedOrders`, for timestamps on which `Date` parsing
succeeds; `parseDate` abstracts `new Date(s).getTime()` on such strings
(the `NaN` result of an unparseable string is outside this model). -/
def sortKey (parseDate : String → Int) (o : Order) : Int :=
  match o.created_at with
  | none => 0
  | some s => if s = "" then 0 else parseDate s

/-- `a.localeCompare(b) <= 0` embedded as code-point lexicographic comparison
of the two strings (locale-specific collation is outside this model). -/
def idLe (a b : String) : Bool :=
  lexLe a.data b.data
where
  /-- Lexicographic "precedes or equals" on code-point sequences. -/
  lexLe : List Char → List Char → Bool
    | [], _ => true
    | _ :: _, [] => false
    | c :: cs, d :: ds =>
      if c.toNat < d.toNat then true
      else if d.toNat < c.toNat then false
      else lexLe cs ds

/-- "`a` may precede `b`" for the multi-store variant's comparator
`if (ta !== tb) return tb - ta; return a.id.localeCompare(b.id)`:
timestamp descending, ties broken by id ascending. -/
def viewBefore (parseDate : String → Int) (a b : Order) : Prop :=
  sortKey parseDate b < sortKey parseDate a ∨
    (sortKey parseDate a = sortKey parseDate b ∧ idLe a.id b.id = true)

instance viewBeforeDecidable (parseDate : String → Int) (a b : Order) :
    Decidable (viewBefore parseDate a b) :=
  inferInstanceAs (Decidable (_ < _ ∨ (_ = _ ∧ _ = _)))

/-- `sortedOrders` of the multi-store variant: `[...orders].sort(cmp)` with the
comparator above, embedded as a stable sort (JS `Array.prototype.sort` is
stable). -/
def sortedOrdersMS (parseDate : String → Int) (orders : List Order) : List Order :=
  orders.insertionSort (viewBefore parseDate)

/-- Modelled from the spec (for comparison only): "stable sort by creation
timestamp descending (unparseable/missing timestamps sort as epoch 0),
tie-broken by lexicographic id ascending".  Here `parseDate` returns `none`
on an unparseable timestamp and the key defaults to 0. -/
def specKey (parseDate : String → Option Int) (o : Order) : Int :=
  ((o.created_at.bind parseDate)).getD 0

/-- Modelled from the spec: the precedence relation of the spec's sorted view. -/
def specBefore (parseDate : String → Option Int) (a b : Order) : Prop :=
  specKey parseDate b < specKey parseDate a ∨
    (specKey parseDate a = specKey parseDate b ∧ idLe a.id b.id = true)

instance specBeforeDecidable (parseDate : String → Option Int) (a b : Order) :
    Decidable (specBefore parseDate a b) :=
  inferInstanceAs (Decidable (_ < _ ∨ (_ = _ ∧ _ = _)))

/-- Modelled from the spec: the displayed order list the spec describes. -/
def specSortedView (parseDate : String → Option Int) (orders : List Order) : List Order :=
  orders.insertionSort (specBefore parseDate)

/-! ## Wallet credit/debit action (`updateWallet`) -/

/-- A JS number as produced by `Number(walletAmount)`: `NaN`, an infinity, or
a finite value (embedded as a rational). -/
inductive JsNum where
  | nan
  | posInf
  | negInf
  | num (q : ℚ)
deriving Repr, DecidableEq

/-- `Number.isFinite`. -/
def jsIsFinite : JsNum → Bool
  | .num _ => true
  | _ => false

/-- The JS comparison `amountValue <= 0` (false on `NaN`). -/
def jsLeZero : JsNum → Bool
  | .num q => q ≤ 0
  | .negInf => true
  | .posInf => false
  | .nan => false

/-- The component state read and written by `updateWallet`. -/
structure WalletState where
  adminCode : String
  walletDriverId : String
  walletAmount : String
  walletMethod : String
  walletNote : String
deriving Repr, DecidableEq

/-- The toasts `updateWallet` can emit. -/
inductive Toast where
  | errorT (msg : String)
  | loadingT (msg : String)
  | successT (msg : String)
deriving Repr, DecidableEq

/-- What one invocation of `updateWallet` did: whether the HTTP request was
issued, the `walletAmount`/`walletNote` fields afterwards, and the toasts. -/
structure WalletOutcome where
  requestSent : Bool
  walletAmount : String
  walletNote : String
  toasts : List Toast
deriving Repr, DecidableEq

/-- `updateWallet(type)` of the page variant and `part_001`.  `amountValue`
is the result of `Number(walletAmount)` (the numeric parse is abstracted as an
input); `respOk` is the truthiness of `data?.ok` in the response, `none`
standing for a thrown `fetch`/decode error.  The `type` argument only selects
the URL suffix and message wording and is omitted. -/
def updateWallet (st : WalletState) (amountValue : JsNum) (respOk : Option Bool) :
    WalletOutcome :=
  if st.adminCode = "" then
    ⟨false, st.walletAmount, st.walletNote, [.errorT "رمز الإدارة مطلوب"]⟩
  else if st.walletDriverId.trim = "" then
    ⟨false, st.walletAmount, st.walletNote, [.errorT "معرّف السائق مطلوب"]⟩
  else if !jsIsFinite amountValue || jsLeZero amountValue then
    ⟨false, st.walletAmount, st.walletNote, [.errorT "أدخل مبلغاً صحيحاً"]⟩
  else
    match respOk with
    | some true => ⟨true, "", "", [.loadingT "...", .successT "تم تحديث المحفظة"]⟩
    | some false =>
        ⟨true, st.walletAmount, st.walletNote,
          [.loadingT "...", .errorT "فشل تحديث المحفظة"]⟩
    | none =>
        ⟨true, st.walletAmount, st.walletNote,
          [.loadingT "...", .errorT "خطأ في الشبكة"]⟩

/-! ## Helper lemmas -/

theorem closesFrom_retry (c : ConnState) (n : Nat) :
    (closesFrom c n).retry = c.retry + n := by
  induction n with
  | zero => rfl
  | succ n ih =>
      simp only [closesFrom, onClose, ih]
      omega

theorem any_id_eq_true_iff (l : List Order) (i : String) :
    (l.any (fun o => o.id == i)) = true ↔ i ∈ l.map Order.id := by
  simp [List.any_eq_true, beq_iff_eq]

theorem mergeOrder_id (o : Order) (p : OrderPatch) : (mergeOrder o p).id = p.id := rfl

theorem upsertList_not_found (l : List Order) (p : OrderPatch)
    (h : p.id ∉ l.map Order.id) : upsertList l p = patchToOrder p :: l := by
  have hc : ¬ ((l.any (fun o => o.id == p.id)) = true) := fun hc =>
    h ((any_id_eq_true_iff l p.id).mp hc)
  unfold upsertList
  rw [if_neg hc]

theorem replaceFirst_append (l1 l2 : List Order) (o : Order) (p : OrderPatch)
    (ho : o.id = p.id) (h1 : p.id ∉ l1.map Order.id) :
    upsertList.replaceFirst (l1 ++ o :: l2) p = l1 ++ mergeOrder o p :: l2 := by
  induction l1 with
  | nil =>
      simp only [List.nil_append, upsertList.replaceFirst]
      rw [if_pos (by simp [ho])]
  | cons a rest ih =>
      simp only [List.map_cons, List.mem_cons] at h1
      push_neg at h1
      have ha : ¬ ((a.id == p.id) = true) := by
        simp only [beq_iff_eq]
        exact fun he => h1.1 he.symm
      simp only [List.cons_append, upsertList.replaceFirst, List.append_eq]
      rw [if_neg ha, ih h1.2]

theorem upsertList_found (l1 l2 : List Order) (o : Order) (p : OrderPatch)
    (ho : o.id = p.id) (h1 : p.id ∉ l1.map Order.id) :
    upsertList (l1 ++ o :: l2) p = l1 ++ mergeOrder o p :: l2 := by
  have hc : ((l1 ++ o :: l2).any (fun x => x.id == p.id)) = true := by
    apply (any_id_eq_true_iff _ _).mpr
    simp [ho.symm]
  unfold upsertList
  rw [if_pos hc]
  exact replaceFirst_append l1 l2 o p ho h1

theorem map_id_replaceFirst (l : List Order) (p : OrderPatch) :
    (upsertList.replaceFirst l p).map Order.id = l.map Order.id := by
  induction l with
  | nil => rfl
  | cons a rest ih =>
      by_cases h : (a.id == p.id) = true
      · have he : a.id = p.id := by simpa [beq_iff_eq] using h
        simp [upsertList.replaceFirst, h, mergeOrder_id, he]
      · simp [upsertList.replaceFirst, h, ih]

theorem upsertList_nodup (l : List Order) (p : OrderPatch)
    (h : (l.map Order.id).Nodup) : ((upsertList l p).map Order.id).Nodup := by
  by_cases hc : (l.any (fun o => o.id == p.id)) = true
  · unfold upsertList
    rw [if_pos hc, map_id_replaceFirst]
    exact h
  · have hnm : p.id ∉ l.map Order.id := fun hm =>
      hc ((any_id_eq_true_iff l p.id).mpr hm)
    unfold upsertList
    rw [if_neg hc]
    simp only [List.map_cons, List.nodup_cons]
    exact ⟨hnm, h⟩

theorem find?_id_unique (l : List Order) (o : Order) (ho : o ∈ l)
    (hu : ∀ x ∈ l, x.id = o.id → x = o) :
    l.find? (fun x => x.id == o.id) = some o := by
  induction l with
  | nil => cases ho
  | cons a rest ih =>
      by_cases h : (a.id == o.id) = true
      · have ha : a = o := hu a (by simp) (by simpa [beq_iff_eq] using h)
        rw [@List.find?_cons_of_pos Order (fun x => x.id == o.id) a rest h, ha]
      · have hne : a ≠ o := fun e => h (by simp [e])
        have ho' : o ∈ rest := by
          rcases List.mem_cons.mp ho with he | hm
          · exact absurd he.symm hne
          · exact hm
        rw [@List.find?_cons_of_neg Order (fun x => x.id == o.id) a rest h]
        exact ih ho' (fun x hx he => hu x (List.mem_cons_of_mem a hx) he)

theorem lookupLast_nodup (l : List Order) (o : Order)
    (h : (l.map Order.id).Nodup) (ho : o ∈ l) : lookupLast l o.id = some o := by
  unfold lookupLast
  apply find?_id_unique
  · simpa using ho
  · intro x hx he
    exact List.inj_on_of_nodup_map h (by simpa using hx) ho he

theorem lookupLast_eq_none (l : List Order) (i : String)
    (h : i ∉ l.map Order.id) : lookupLast l i = none := by
  unfold lookupLast
  rw [List.find?_eq_none]
  intro x hx
  simp only [beq_iff_eq]
  exact fun he => h (List.mem_map.mpr ⟨x, by simpa using hx, he⟩)

theorem mapGet_mapSet_self (m : List (String × Nat)) (k : String) (v : Nat) :
    mapGet (mapSet m k v) k = some v := by
  induction m with
  | nil => simp [mapSet, mapGet]
  | cons e rest ih =>
      by_cases h : (e.1 == k) = true
      · simp [mapSet, mapGet, h]
      · simp [mapSet, mapGet, h, ih]

theorem mapSet_cons_pos (e : String × Nat) (rest : List (String × Nat))
    (k : String) (v : Nat) (hc : (e.1 == k) = true) :
    mapSet (e :: rest) k v = (k, v) :: rest := by
  simp [mapSet, hc]

theorem mapSet_cons_neg (e : String × Nat) (rest : List (String × Nat))
    (k : String) (v : Nat) (hc : ¬ (e.1 == k) = true) :
    mapSet (e :: rest) k v = e :: mapSet rest k v := by
  simp [mapSet, hc]

theorem mem_keys_mapSet (m : List (String × Nat)) (k k' : String) (v : Nat)
    (h : k' ∈ (mapSet m k v).map Prod.fst) :
    k' ∈ m.map Prod.fst ∨ k' = k := by
  induction m with
  | nil =>
      right
      simpa [mapSet] using h
  | cons e rest ih =>
      by_cases hc : (e.1 == k) = true
      · rw [mapSet_cons_pos e rest k v hc] at h
        simp only [List.map_cons, List.mem_cons] at h
        rcases h with h | h
        · right; exact h
        · left
          simp only [List.map_cons, List.mem_cons]
          right; exact h
      · rw [mapSet_cons_neg e rest k v hc] at h
        simp only [List.map_cons, List.mem_cons] at h
        rcases h with h | h
        · left; simp [h]
        · rcases ih h with h1 | h1
          · left
            simp only [List.map_cons, List.mem_cons]
            right; exact h1
          · right; exact h1

theorem keysNodup_mapSet (m : List (String × Nat)) (k : String) (v : Nat)
    (h : keysNodup m) : keysNodup (mapSet m k v) := by
  induction m with
  | nil => simp [mapSet, keysNodup]
  | cons e rest ih =>
      unfold keysNodup at h ⊢
      simp only [List.map_cons, List.nodup_cons] at h
      by_cases hc : (e.1 == k) = true
      · have he : e.1 = k := by simpa [beq_iff_eq] using hc
        rw [mapSet_cons_pos e rest k v hc]
        simp only [List.map_cons, List.nodup_cons]
        exact ⟨he ▸ h.1, h.2⟩
      · have hne : e.1 ≠ k := by simpa [beq_iff_eq] using hc
        rw [mapSet_cons_neg e rest k v hc]
        simp only [List.map_cons, List.nodup_cons]
        refine ⟨fun hm => ?_, ih h.2⟩
        rcases mem_keys_mapSet rest k e.1 v hm with h1 | h1
        · exact h.1 h1
        · exact hne h1

theorem keysNodup_mapDelete (m : List (String × Nat)) (k : String)
    (h : keysNodup m) : keysNodup (mapDelete m k) := by
  unfold keysNodup at h ⊢
  unfold mapDelete
  exact ((m.filter_sublist).map Prod.fst).nodup h

theorem flashOrder_timers (fs : FlashState) (log : FlashLog) (i : String) :
    (flashOrder fs log i).1.flashTimers = mapSet fs.flashTimers i fs.nextTimer := rfl

theorem flashOrder_scheduled (fs : FlashState) (log : FlashLog) (i : String) :
    (flashOrder fs log i).2.scheduled = log.scheduled ++ [(i, fs.nextTimer, 2000)] := rfl

theorem flashOrder_cancelled_of_get (fs : FlashState) (log : FlashLog) (i : String)
    (t : Nat) (h : mapGet fs.flashTimers i = some t) :
    (flashOrder fs log i).2.cancelled = log.cancelled ++ [t] := by
  simp [flashOrder, h]

theorem keysNodup_flashOrder (fs : FlashState) (log : FlashLog) (i : String)
    (h : keysNodup fs.flashTimers) :
    keysNodup (flashOrder fs log i).1.flashTimers := by
  rw [flashOrder_timers]
  exact keysNodup_mapSet _ _ _ h

theorem keysNodup_applyStep (prev : List Order)
    (acc : FlashState × FlashLog × List Notif) (o : Order)
    (h : keysNodup acc.1.flashTimers) :
    keysNodup (applyStep prev acc o).1.flashTimers := by
  unfold applyStep
  cases hl : lookupLast prev o.id with
  | none => exact keysNodup_flashOrder acc.1 acc.2.1 o.id h
  | some previous =>
      dsimp only
      by_cases hs : previous.status ≠ o.status
      · rw [if_pos hs]
        exact keysNodup_flashOrder acc.1 acc.2.1 o.id h
      · rw [if_neg hs]
        exact h

theorem keysNodup_foldl (prev : List Order) (l : List Order)
    (acc : FlashState × FlashLog × List Notif)
    (h : keysNodup acc.1.flashTimers) :
    keysNodup ((l.foldl (applyStep prev) acc).1.flashTimers) := by
  induction l generalizing acc with
  | nil => exact h
  | cons a rest ih => exact ih _ (keysNodup_applyStep prev acc a h)

theorem applyOrders_orders (st : RecState) (next : List Order) (b : Bool) :
    (applyOrders st next b).1.orders = next := rfl

theorem applyOrders_notifs_false (st : RecState) (next : List Order) :
    (applyOrders st next false).2.1 = [] := rfl

theorem keysNodup_applyOrders (st : RecState) (next : List Order) (b : Bool)
    (h : keysNodup st.fs.flashTimers) :
    keysNodup ((applyOrders st next b).1.fs.flashTimers) := by
  cases b with
  | false => exact h
  | true =>
      show keysNodup ((next.foldl (applyStep st.orders) (st.fs, ⟨[], []⟩, [])).1.flashTimers)
      exact keysNodup_foldl _ _ _ h

theorem foldl_applyStep_frame (prev : List Order) (l : List Order)
    (acc : FlashState × FlashLog × List Notif)
    (h : ∀ o ∈ l, lookupLast prev o.id = some o) :
    l.foldl (applyStep prev) acc = acc := by
  induction l generalizing acc with
  | nil => rfl
  | cons a rest ih =>
      have ha := h a (by simp)
      have hstep : applyStep prev acc a = acc := by
        simp [applyStep, ha]
      rw [List.foldl_cons, hstep]
      exact ih acc (fun o ho => h o (List.mem_cons_of_mem a ho))

theorem patchToOrder_id (p : OrderPatch) : (patchToOrder p).id = p.id := rfl

theorem mergeOrder_statusPatch (o : Order) (p : StatusPayload)
    (hi : o.id = p.order_id) :
    mergeOrder o (statusPatch p)
      = { o with
          driver_id := p.driver_id
          status := p.status
          delivered_at := p.delivered_at } := by
  obtain ⟨i, f1, f2, f3, f4, f5, f6, f7, f8, f9, f10, f11, f12⟩ := o
  have hi2 : i = p.order_id := hi
  subst hi2
  rfl

/-! ## Claim theorems -/

/-- C3: For every sequence of N consecutive socket close events with no
intervening successful open (starting from a freshly opened connection,
`retry = 0`), the Nth scheduled reconnect delay equals
`min(30000, 1000 * 2^(N-1))` ms, and a successful open resets the retry
counter to zero, so the close that follows an open is again scheduled at
`min(30000, 1000 * 2^0) = 1000` ms. -/
theorem backoff_delays (N : Nat) (hN : 1 ≤ N) :
    (onClose (closesFrom ⟨0⟩ (N - 1))).2 = min 30000 (1000 * 2 ^ (N - 1)) ∧
    (∀ c : ConnState, (onOpen c).retry = 0) ∧
    (∀ c : ConnState, (onClose (onOpen c)).2 = 1000) := by
  refine ⟨?_, fun _ => rfl, fun _ => rfl⟩
  have hr : (closesFrom ⟨0⟩ (N - 1)).retry = N - 1 := by
    simpa using closesFrom_retry ⟨0⟩ (N - 1)
  have hlift : 0 < N := hN
  simp [onClose, hr, closeDelay]

/-- Witness for C3 at N = 6 (delay capped at 30000 ms), together with the
first six delays 1s, 2s, 4s, 8s, 16s, 30s. -/
theorem backoff_delays_witness :
    1 ≤ 6 ∧
      ((onClose (closesFrom ⟨0⟩ (6 - 1))).2 = min 30000 (1000 * 2 ^ (6 - 1)) ∧
        (∀ c : ConnState, (onOpen c).retry = 0) ∧
        (∀ c : ConnState, (onClose (onOpen c)).2 = 1000)) ∧
      [(onClose (closesFrom ⟨0⟩ 0)).2, (onClose (closesFrom ⟨0⟩ 1)).2,
        (onClose (closesFrom ⟨0⟩ 2)).2, (onClose (closesFrom ⟨0⟩ 3)).2,
        (onClose (closesFrom ⟨0⟩ 4)).2, (onClose (closesFrom ⟨0⟩ 5)).2] =
        [1000, 2000, 4000, 8000, 16000, 30000] :=
  ⟨by decide, backoff_delays 6 (by decide), by decide⟩

/-- C4: `applyOrders` replaces the authoritative list wholesale; `upsertOrder`
on a present id shallow-merges the patch into that entry in place (fields
absent from the patch keep their previous values), and on an unknown id
prepends a new order built from the patch.  In particular, from
`[{id:"a",status:"pending"}]`, upserting `{id:"a",status:"delivering"}`
yields that order with only its status changed and every other field kept. -/
theorem snapshot_replaces_upsert_merges :
    (∀ (st : RecState) (next : List Order) (notify : Bool),
        (applyOrders st next notify).1.orders = next)
    ∧ (∀ (l1 l2 : List Order) (o : Order) (p : OrderPatch),
        o.id = p.id → p.id ∉ l1.map Order.id →
          upsertList (l1 ++ o :: l2) p = l1 ++ mergeOrder o p :: l2)
    ∧ (∀ (l : List Order) (p : OrderPatch),
        p.id ∉ l.map Order.id → upsertList l p = patchToOrder p :: l)
    ∧ (∀ o : Order, o.id = "a" →
        upsertList [o] { id := "a", status := some (some "delivering") }
          = [{ o with status := some "delivering" }]) := by
  refine ⟨fun st next notify => rfl,
    fun l1 l2 o p ho h1 => upsertList_found l1 l2 o p ho h1,
    fun l p h => upsertList_not_found l p h, ?_⟩
  intro o ho
  obtain ⟨i, f1, f2, f3, f4, f5, f6, f7, f8, f9, f10, f11, f12⟩ := o
  have hi : i = "a" := ho
  subst hi
  have h2 := upsertList_found [] []
      ⟨"a", f1, f2, f3, f4, f5, f6, f7, f8, f9, f10, f11, f12⟩
      { id := "a", status := some (some "delivering") } rfl (by simp)
  simp only [List.nil_append] at h2
  rw [h2]
  rfl

/-- Witness for C4: the snapshot `[{id:"b",status:"pending"}]` wholesale
replaces `[{id:"a",status:"pending"}]`, and the upsert of
`{id:"a",status:"delivering"}` merges in place. -/
theorem snapshot_replaces_upsert_merges_witness :
    ((applyOrders ⟨[{ id := "a", status := some "pending" }], true, ⟨[], [], 0⟩⟩
        [{ id := "b", status := some "pending" }] true).1.orders
      = [{ id := "b", status := some "pending" }])
    ∧ upsertList [{ id := "a", status := some "pending" }]
        { id := "a", status := some (some "delivering") }
        = [{ id := "a", status := some "delivering" }] :=
  ⟨snapshot_replaces_upsert_merges.1 _ _ _,
   snapshot_replaces_upsert_merges.2.2.2 { id := "a", status := some "pending" } rfl⟩

/-- C10: `upsertOrder` on a present id rewrites only the entry with that id
(every other entry is preserved identically and in position, and the length
is unchanged); on an unknown id it prepends and changes no existing entry;
and distinctness of ids is preserved. -/
theorem upsert_frame_properties :
    (∀ (l1 l2 : List Order) (o : Order) (p : OrderPatch),
        o.id = p.id → p.id ∉ l1.map Order.id →
          upsertList (l1 ++ o :: l2) p = l1 ++ mergeOrder o p :: l2
          ∧ (upsertList (l1 ++ o :: l2) p).length = (l1 ++ o :: l2).length)
    ∧ (∀ (l : List Order) (p : OrderPatch), p.id ∉ l.map Order.id →
          upsertList l p = patchToOrder p :: l
          ∧ (upsertList l p).length = l.length + 1)
    ∧ (∀ (l : List Order) (p : OrderPatch),
        (l.map Order.id).Nodup → ((upsertList l p).map Order.id).Nodup) := by
  refine ⟨fun l1 l2 o p ho h1 => ?_, fun l p h => ?_,
    fun l p h => upsertList_nodup l p h⟩
  · have he := upsertList_found l1 l2 o p ho h1
    exact ⟨he, by rw [he]; simp⟩
  · have he := upsertList_not_found l p h
    exact ⟨he, by rw [he]; simp⟩

/-- Witness for C10: upserting the unknown id "b" into
`[{id:"a",status:"pending"}]` prepends and yields length 2. -/
theorem upsert_frame_properties_witness :
    upsertList [{ id := "a", status := some "pending" }] { id := "b" }
      = [patchToOrder { id := "b" }, { id := "a", status := some "pending" }]
    ∧ (upsertList [{ id := "a", status := some "pending" }] { id := "b" }).length = 2 :=
  ⟨(upsert_frame_properties.2.1 [{ id := "a", status := some "pending" }]
      { id := "b" } (by decide)).1,
   (upsert_frame_properties.2.1 [{ id := "a", status := some "pending" }]
      { id := "b" } (by decide)).2⟩

/-- C5: With the has-loaded-once flag unset, applying a snapshot
(`fetchOrders` success path) or an upsert produces zero notifications
regardless of the notify flag; every application leaves the flag true
permanently; and from a loaded state, upserting a genuinely new order id
with notify on produces exactly one "new order" notification. -/
theorem first_load_suppression :
    (∀ (st : RecState) (orders : List Order) (notify : Bool), st.hasLoaded = false →
        (fetchOrdersSuccess st orders notify).2.1 = []
        ∧ (fetchOrdersSuccess st orders notify).1.hasLoaded = true)
    ∧ (∀ (st : RecState) (p : OrderPatch) (notify : Bool), st.hasLoaded = false →
        (upsertOrder st p notify).2.1 = []
        ∧ (upsertOrder st p notify).1.hasLoaded = true)
    ∧ (∀ (st : RecState) (orders : List Order) (notify : Bool),
        (fetchOrdersSuccess st orders notify).1.hasLoaded = true)
    ∧ (∀ (st : RecState) (p : OrderPatch) (notify : Bool),
        (upsertOrder st p notify).1.hasLoaded = true)
    ∧ (∀ (st : RecState) (p : OrderPatch), st.hasLoaded = true →
        (st.orders.map Order.id).Nodup → p.id ∉ st.orders.map Order.id →
        (upsertOrder st p true).2.1 = [Notif.newOrder p.id])
    ∧ (∀ (st : RecState) (n : Order), st.hasLoaded = true →
        (st.orders.map Order.id).Nodup → n.id ∉ st.orders.map Order.id →
        (fetchOrdersSuccess st (n :: st.orders) true).2.1 = [Notif.newOrder n.id]) := by
  refine ⟨fun st orders notify h => ?_, fun st p notify h => ?_,
    fun st orders notify => rfl, fun st p notify => rfl,
    fun st p hL hnd hnm => ?_, fun st n hL hnd hnm => ?_⟩
  · refine ⟨?_, rfl⟩
    show (applyOrders st orders (notify && st.hasLoaded)).2.1 = []
    rw [h, Bool.and_false]
    rfl
  · refine ⟨?_, rfl⟩
    show (applyOrders st (upsertList st.orders p) (notify && st.hasLoaded)).2.1 = []
    rw [h, Bool.and_false]
    rfl
  · show (applyOrders st (upsertList st.orders p) (true && st.hasLoaded)).2.1
        = [Notif.newOrder p.id]
    rw [hL]
    show ((upsertList st.orders p).foldl (applyStep st.orders)
        (st.fs, ⟨[], []⟩, [])).2.2 = [Notif.newOrder p.id]
    rw [upsertList_not_found st.orders p hnm, List.foldl_cons]
    have hstep : applyStep st.orders (st.fs, ⟨[], []⟩, []) (patchToOrder p)
        = ((flashOrder st.fs ⟨[], []⟩ p.id).1, (flashOrder st.fs ⟨[], []⟩ p.id).2,
            [Notif.newOrder p.id]) := by
      have hl : lookupLast st.orders p.id = none :=
        lookupLast_eq_none st.orders p.id hnm
      simp [applyStep, hl, patchToOrder_id]
    rw [hstep, foldl_applyStep_frame st.orders st.orders _
      (fun x hx => lookupLast_nodup st.orders x hnd hx)]
  · show (applyOrders st (n :: st.orders) (true && st.hasLoaded)).2.1
        = [Notif.newOrder n.id]
    rw [hL]
    show ((n :: st.orders).foldl (applyStep st.orders)
        (st.fs, ⟨[], []⟩, [])).2.2 = [Notif.newOrder n.id]
    rw [List.foldl_cons]
    have hstep : applyStep st.orders (st.fs, ⟨[], []⟩, []) n
        = ((flashOrder st.fs ⟨[], []⟩ n.id).1, (flashOrder st.fs ⟨[], []⟩ n.id).2,
            [Notif.newOrder n.id]) := by
      have hl : lookupLast st.orders n.id = none :=
        lookupLast_eq_none st.orders n.id hnm
      simp [applyStep, hl]
    rw [hstep, foldl_applyStep_frame st.orders st.orders _
      (fun x hx => lookupLast_nodup st.orders x hnd hx)]

/-- Witness for C5: from a fresh session (flag unset) the first snapshot emits
no notification even with notify on; from a loaded single-order state an
upsert of the new id "c" emits exactly one "new order" notification. -/
theorem first_load_suppression_witness :
    (fetchOrdersSuccess ⟨[], false, ⟨[], [], 0⟩⟩
        [{ id := "a", status := some "pending" }] true).2.1 = []
    ∧ (upsertOrder ⟨[{ id := "a", status := some "pending" }], true, ⟨[], [], 0⟩⟩
        { id := "c" } true).2.1 = [Notif.newOrder "c"] :=
  ⟨(first_load_suppression.1 ⟨[], false, ⟨[], [], 0⟩⟩
      [{ id := "a", status := some "pending" }] true rfl).1,
   first_load_suppression.2.2.2.2.1
      ⟨[{ id := "a", status := some "pending" }], true, ⟨[], [], 0⟩⟩
      { id := "c" } rfl (by decide) (by decide)⟩

/-- C1 counterexample: an `order_status` event whose payload carries no
`driver_id` and no `delivered_at` nulls those fields on the existing order
instead of leaving their previous values ("d1", "T1") unchanged. -/
theorem orderStatus_nulls_absent_fields_cx :
    ((handleRealtime
        ⟨[{ id := "a"
            driver_id := some "d1"
            status := some "pending"
            delivered_at := some "T1" }], true, ⟨[], [], 0⟩⟩
        (.orderStatus { order_id := "a", status := some "delivering" })).1.orders.map
          Order.driver_id = [none])
    ∧ ¬ ((handleRealtime
        ⟨[{ id := "a"
            driver_id := some "d1"
            status := some "pending"
            delivered_at := some "T1" }], true, ⟨[], [], 0⟩⟩
        (.orderStatus { order_id := "a", status := some "delivering" })).1.orders.map
          Order.driver_id = [some "d1"]) := by
  constructor
  · rfl
  · decide

/-- C1 (amended): for an `order_status` event about an order present in the
list, the reconciler always overwrites all three of `status`, `driver_id`,
`delivered_at` with the payload's values, any field absent from the payload
being coerced to null — absent fields do not preserve the previous values. -/
theorem orderStatus_patch_overwrites_fields (st : RecState) (p : StatusPayload)
    (l1 l2 : List Order) (o : Order)
    (hP : st.orders = l1 ++ o :: l2) (hi : o.id = p.order_id)
    (h1 : p.order_id ∉ l1.map Order.id) :
    (handleRealtime st (.orderStatus p)).1.orders
      = l1 ++ { o with
          driver_id := p.driver_id
          status := p.status
          delivered_at := p.delivered_at } :: l2 := by
  show upsertList st.orders (statusPatch p) = _
  rw [hP, upsertList_found l1 l2 o (statusPatch p) hi h1,
    mergeOrder_statusPatch o p hi]

/-- Witness for C1's amended theorem at a concrete state and payload. -/
theorem orderStatus_patch_overwrites_fields_witness :
    (handleRealtime
        ⟨[{ id := "a"
            driver_id := some "d1"
            status := some "pending"
            delivered_at := some "T1" }], true, ⟨[], [], 0⟩⟩
        (.orderStatus { order_id := "a", status := some "delivering" })).1.orders
      = [{ id := "a"
           driver_id := none
           status := some "delivering"
           delivered_at := none }] :=
  orderStatus_patch_overwrites_fields
    ⟨[{ id := "a"
        driver_id := some "d1"
        status := some "pending"
        delivered_at := some "T1" }], true, ⟨[], [], 0⟩⟩
    { order_id := "a", status := some "delivering" } [] []
    { id := "a"
      driver_id := some "d1"
      status := some "pending"
      delivered_at := some "T1" } rfl rfl (by decide)

/-- C2 counterexample: the page variant's `handleRealtime` processes an
`order_status` event whose `store_id` ("S1") differs from the subscribed
store ("S2"): the authoritative order list changes. -/
theorem storeFilter_page_variant_cx :
    (handleRealtime
        ⟨[{ id := "a", store_id := some "S2", status := some "pending" }],
          true, ⟨[], [], 0⟩⟩
        (.orderStatus { order_id := "a"
                        status := some "delivering"
                        store_id := some "S1" })).1.orders
      ≠ [{ id := "a", store_id := some "S2", status := some "pending" }] := by
  decide

/-- C2 (amended): only the multi-store variant discards order events whose
non-empty `store_id` differs from the selected store — for such events its
handler returns the state unchanged with no notification and no timer
activity.  (The page variant and `part_001` perform no such filtering, and
driver events are never filtered.) -/
theorem storeFilter_multistore_discards (storeId : String) (st : RecState) :
    (∀ (p : StatusPayload) (s : String),
        p.store_id = some s → s ≠ "" → s ≠ storeId →
          handleRealtimeMS storeId st (.orderStatus p) = (st, [], ⟨[], []⟩))
    ∧ (∀ (o : Order) (s : String),
        o.store_id = some s → s ≠ "" → s ≠ storeId →
          handleRealtimeMS storeId st (.orderCreated o) = (st, [], ⟨[], []⟩)) := by
  constructor
  · intro p s hsome h1 h2
    simp [handleRealtimeMS, hsome, h1, h2]
  · intro o s hsome h1 h2
    simp [handleRealtimeMS, hsome, h1, h2]

/-- Witness for C2's amended theorem: subscribed to "S2", an `order_status`
event tagged "S1" leaves the state untouched in the multi-store variant. -/
theorem storeFilter_multistore_discards_witness :
    handleRealtimeMS "S2" ⟨[], false, ⟨[], [], 0⟩⟩
        (.orderStatus { order_id := "a"
                        status := some "delivering"
                        store_id := some "S1" })
      = (⟨[], false, ⟨[], [], 0⟩⟩, [], ⟨[], []⟩) :=
  (storeFilter_multistore_discards "S2" ⟨[], false, ⟨[], [], 0⟩⟩).1
    { order_id := "a", status := some "delivering", store_id := some "S1" }
    "S1" rfl (by decide) (by decide)

/-- C6: applying a snapshot in which exactly one order changes status (notify
on, loaded flag set, ids distinct) emits exactly one status-change
notification and schedules exactly one 2000 ms highlight-clear timer for that
id; a repeated `flashOrder` for an id with a pending timer cancels that timer
and schedules a fresh one (restart, not stacking); and the per-id uniqueness
of live flash timers is preserved by every application. -/
theorem status_change_flash_restart (st : RecState) (l1 l2 : List Order)
    (o o' : Order) (hP : st.orders = l1 ++ o :: l2)
    (hnd : (st.orders.map Order.id).Nodup)
    (hid : o'.id = o.id) (hs : o'.status ≠ o.status) :
    ((applyOrders st (l1 ++ o' :: l2) true).2.1 = [Notif.statusChange o.id]
      ∧ (applyOrders st (l1 ++ o' :: l2) true).2.2.scheduled
          = [(o.id, st.fs.nextTimer, 2000)]
      ∧ (applyOrders st (l1 ++ o' :: l2) true).1.fs.flashTimers
          = mapSet st.fs.flashTimers o.id st.fs.nextTimer)
    ∧ (∀ (fs : FlashState) (log : FlashLog) (i : String) (t : Nat),
        mapGet fs.flashTimers i = some t →
          (flashOrder fs log i).2.cancelled = log.cancelled ++ [t]
          ∧ mapGet (flashOrder fs log i).1.flashTimers i = some fs.nextTimer
          ∧ (flashOrder fs log i).2.scheduled
              = log.scheduled ++ [(i, fs.nextTimer, 2000)])
    ∧ (∀ (st2 : RecState) (next : List Order) (notify : Bool),
        keysNodup st2.fs.flashTimers →
          keysNodup ((applyOrders st2 next notify).1.fs.flashTimers)) := by
  have hfold : (l1 ++ o' :: l2).foldl (applyStep st.orders) (st.fs, ⟨[], []⟩, [])
      = ((flashOrder st.fs ⟨[], []⟩ o.id).1, (flashOrder st.fs ⟨[], []⟩ o.id).2,
          [Notif.statusChange o.id]) := by
    rw [List.foldl_append]
    have hl1 : l1.foldl (applyStep st.orders) (st.fs, ⟨[], []⟩, [])
        = (st.fs, ⟨[], []⟩, []) :=
      foldl_applyStep_frame st.orders l1 _ (fun x hx =>
        lookupLast_nodup st.orders x hnd
          (by rw [hP]; exact List.mem_append_left _ hx))
    rw [hl1, List.foldl_cons]
    have ho_mem : o ∈ st.orders := by
      rw [hP]
      exact List.mem_append_right _ (by simp)
    have hlook : lookupLast st.orders o'.id = some o := by
      rw [hid]
      exact lookupLast_nodup st.orders o hnd ho_mem
    have hstep : applyStep st.orders (st.fs, ⟨[], []⟩, []) o'
        = ((flashOrder st.fs ⟨[], []⟩ o'.id).1, (flashOrder st.fs ⟨[], []⟩ o'.id).2,
            [Notif.statusChange o'.id]) := by
      have hne : o.status ≠ o'.status := fun e => hs e.symm
      simp [applyStep, hlook, hne]
    rw [hstep, hid]
    exact foldl_applyStep_frame st.orders l2 _ (fun x hx =>
      lookupLast_nodup st.orders x hnd
        (by rw [hP]; exact List.mem_append_right _ (List.mem_cons_of_mem o hx)))
  refine ⟨⟨?_, ?_, ?_⟩, fun fs log i t h => ?_,
    fun st2 next notify h => keysNodup_applyOrders st2 next notify h⟩
  · show ((l1 ++ o' :: l2).foldl (applyStep st.orders) (st.fs, ⟨[], []⟩, [])).2.2
        = [Notif.statusChange o.id]
    rw [hfold]
  · show ((l1 ++ o' :: l2).foldl (applyStep st.orders)
        (st.fs, ⟨[], []⟩, [])).2.1.scheduled = [(o.id, st.fs.nextTimer, 2000)]
    rw [hfold]
    simp [flashOrder_scheduled]
  · show ((l1 ++ o' :: l2).foldl (applyStep st.orders)
        (st.fs, ⟨[], []⟩, [])).1.flashTimers
        = mapSet st.fs.flashTimers o.id st.fs.nextTimer
    rw [hfold]
    exact flashOrder_timers st.fs ⟨[], []⟩ o.id
  · exact ⟨flashOrder_cancelled_of_get fs log i t h,
      by rw [flashOrder_timers]; exact mapGet_mapSet_self _ _ _,
      flashOrder_scheduled fs log i⟩

/-- Witness for C6: order "x" changing from pending to delivering in a
loaded single-order state emits one status-change notification and schedules
one 2000 ms highlight-clear for "x"; flashing "x" again while timer 0 is
pending cancels timer 0 and installs fresh timer 1. -/
theorem status_change_flash_restart_witness :
    ((applyOrders ⟨[{ id := "x", status := some "pending" }], true, ⟨[], [], 0⟩⟩
        [{ id := "x", status := some "delivering" }] true).2.1
      = [Notif.statusChange "x"])
    ∧ ((applyOrders ⟨[{ id := "x", status := some "pending" }], true, ⟨[], [], 0⟩⟩
        [{ id := "x", status := some "delivering" }] true).2.2.scheduled
      = [("x", 0, 2000)])
    ∧ ((flashOrder ⟨["x"], [("x", 0)], 1⟩ ⟨[], []⟩ "x").2.cancelled = [0]
        ∧ mapGet (flashOrder ⟨["x"], [("x", 0)], 1⟩ ⟨[], []⟩ "x").1.flashTimers "x"
            = some 1) := by
  have h := status_change_flash_restart
      ⟨[{ id := "x", status := some "pending" }], true, ⟨[], [], 0⟩⟩ [] []
      { id := "x", status := some "pending" }
      { id := "x", status := some "delivering" }
      rfl (by decide) rfl (by decide)
  have h2 := h.2.1 ⟨["x"], [("x", 0)], 1⟩ ⟨[], []⟩ "x" 0 (by decide)
  exact ⟨h.1.1, h.1.2.1, by simpa using h2.1, h2.2.1⟩

/-- C7 counterexample: teardown does not cancel per-order flash-clear timers:
after running the effect cleanup on a state with a live flash timer for "x",
that timer is still live. -/
theorem cleanup_leaves_flash_timers_cx :
    (cleanup ⟨true, true, true, some 1, some 2, true, [("x", 7)]⟩).flashTimers
      ≠ [] := by
  decide

/-- C7 (amended): the effect cleanup closes the socket and the EventSource and
clears the keepalive, reconnect and polling timers; running it twice equals
running it once (and raises no error); but the per-order flash-clear timers
are left untouched. -/
theorem cleanup_clears_connection_resources (r : EffectResources) :
    (cleanup r).active = false ∧ (cleanup r).sourceOpen = false
    ∧ (cleanup r).socketOpen = false ∧ (cleanup r).pingTimer = none
    ∧ (cleanup r).reconnectTimer = none ∧ (cleanup r).pollLive = false
    ∧ cleanup (cleanup r) = cleanup r
    ∧ (cleanup r).flashTimers = r.flashTimers :=
  ⟨rfl, rfl, rfl, rfl, rfl, rfl, rfl, rfl⟩

theorem lexLe_total (x y : List Char) :
    idLe.lexLe x y = true ∨ idLe.lexLe y x = true := by
  induction x generalizing y with
  | nil => left; rfl
  | cons c cs ih =>
      cases y with
      | nil => right; rfl
      | cons d ds =>
          rcases Nat.lt_trichotomy c.toNat d.toNat with h | h | h
          · left
            simp [idLe.lexLe, h]
          · have h1 : ¬ c.toNat < d.toNat := by omega
            have h2 : ¬ d.toNat < c.toNat := by omega
            rcases ih ds with hx | hx
            · left
              simp [idLe.lexLe, h1, h2, hx]
            · right
              simp [idLe.lexLe, h1, h2, hx]
          · right
            simp [idLe.lexLe, h]

theorem lexLe_trans (x : List Char) : ∀ (y z : List Char),
    idLe.lexLe x y = true → idLe.lexLe y z = true → idLe.lexLe x z = true := by
  induction x with
  | nil => intro y z h1 h2; rfl
  | cons c cs ih =>
      intro y z h1 h2
      cases y with
      | nil => simp [idLe.lexLe] at h1
      | cons d ds =>
          cases z with
          | nil => simp [idLe.lexLe] at h2
          | cons e es =>
              simp only [idLe.lexLe] at h1 h2 ⊢
              by_cases hcd : c.toNat < d.toNat
              · by_cases hde : d.toNat < e.toNat
                · rw [if_pos (Nat.lt_trans hcd hde)]
                · by_cases hed : e.toNat < d.toNat
                  · rw [if_neg hde, if_pos hed] at h2
                    exact Bool.noConfusion h2
                  · have hce : c.toNat < e.toNat := by omega
                    rw [if_pos hce]
              · by_cases hdc : d.toNat < c.toNat
                · rw [if_neg hcd, if_pos hdc] at h1
                  exact Bool.noConfusion h1
                · rw [if_neg hcd, if_neg hdc] at h1
                  by_cases hde : d.toNat < e.toNat
                  · have hce : c.toNat < e.toNat := by omega
                    rw [if_pos hce]
                  · by_cases hed : e.toNat < d.toNat
                    · rw [if_neg hde, if_pos hed] at h2
                      exact Bool.noConfusion h2
                    · rw [if_neg hde, if_neg hed] at h2
                      have h3 : ¬ c.toNat < e.toNat := by omega
                      have h4 : ¬ e.toNat < c.toNat := by omega
                      rw [if_neg h3, if_neg h4]
                      exact ih ds es h1 h2

theorem viewBefore_total (parseDate : String → Int) (a b : Order) :
    viewBefore parseDate a b ∨ viewBefore parseDate b a := by
  unfold viewBefore
  rcases lt_trichotomy (sortKey parseDate a) (sortKey parseDate b) with h | h | h
  · right; left; exact h
  · rcases lexLe_total a.id.data b.id.data with hid | hid
    · left; right; exact ⟨h, hid⟩
    · right; right; exact ⟨h.symm, hid⟩
  · left; left; exact h

theorem viewBefore_trans (parseDate : String → Int) (a b c : Order)
    (h1 : viewBefore parseDate a b) (h2 : viewBefore parseDate b c) :
    viewBefore parseDate a c := by
  unfold viewBefore at h1 h2 ⊢
  rcases h1 with h1 | ⟨h1e, h1i⟩ <;> rcases h2 with h2 | ⟨h2e, h2i⟩
  · left; exact h2.trans h1
  · left; rw [← h2e]; exact h1
  · left; rw [h1e]; exact h2
  · right; exact ⟨h1e.trans h2e, lexLe_trans a.id.data b.id.data c.id.data h1i h2i⟩

/-- C8 counterexample: two orders with missing timestamps (both sort keys 0)
and ids "b", "a" stored in that list order are displayed as "b" then "a" by
the cited variants, whereas the spec's sorted view (tie broken by id
ascending) puts "a" first. -/
theorem displayed_list_unsorted_cx :
    displayedOrderRows [{ id := "b" }, { id := "a" }] = ["b", "a"]
    ∧ (specSortedView (fun _ => none) [{ id := "b" }, { id := "a" }]).map Order.id
        = ["a", "b"]
    ∧ displayedOrderRows [{ id := "b" }, { id := "a" }]
        ≠ (specSortedView (fun _ => none) [{ id := "b" }, { id := "a" }]).map
            Order.id := by
  refine ⟨rfl, by decide, by decide⟩

/-- C8 (amended): the page variant and `part_001` display the authoritative
list in its stored order (the rendered row keys are exactly the stored id
sequence, and `recentOrders` is its first five entries); only the multi-store
variant sorts, and there `sortedOrders` is a permutation of the authoritative
list that is sorted by creation timestamp descending with ties broken by id
ascending. -/
theorem view_order_and_ms_sort :
    (∀ orders : List Order,
        displayedOrderRows orders = orders.map Order.id
        ∧ recentOrders orders = orders.take 5)
    ∧ (∀ (parseDate : String → Int) (orders : List Order),
        (sortedOrdersMS parseDate orders).Perm orders
        ∧ List.Sorted (viewBefore parseDate) (sortedOrdersMS parseDate orders)) := by
  refine ⟨fun orders => ⟨rfl, rfl⟩, fun parseDate orders => ⟨?_, ?_⟩⟩
  · exact List.perm_insertionSort (viewBefore parseDate) orders
  · haveI : IsTotal Order (viewBefore parseDate) := ⟨viewBefore_total parseDate⟩
    haveI : IsTrans Order (viewBefore parseDate) := ⟨viewBefore_trans parseDate⟩
    exact List.sorted_insertionSort (viewBefore parseDate) orders

/-- C9: an invocation of the wallet credit/debit action whose parsed amount is
not a finite number strictly greater than zero sends no HTTP request, leaves
the amount and note fields unchanged, and reports exactly one validation
error toast. -/
theorem updateWallet_invalid_amount_no_request (a : JsNum)
    (h : jsIsFinite a = false ∨ jsLeZero a = true) :
    ∀ (st : WalletState) (respOk : Option Bool),
      (updateWallet st a respOk).requestSent = false
      ∧ (updateWallet st a respOk).walletAmount = st.walletAmount
      ∧ (updateWallet st a respOk).walletNote = st.walletNote
      ∧ ∃ msg, (updateWallet st a respOk).toasts = [Toast.errorT msg] := by
  intro st respOk
  unfold updateWallet
  by_cases h1 : st.adminCode = ""
  · rw [if_pos h1]
    exact ⟨rfl, rfl, rfl, _, rfl⟩
  · rw [if_neg h1]
    by_cases h2 : st.walletDriverId.trim = ""
    · rw [if_pos h2]
      exact ⟨rfl, rfl, rfl, _, rfl⟩
    · rw [if_neg h2]
      have hcond : (!jsIsFinite a || jsLeZero a) = true := by
        rcases h with h | h <;> simp [h]
      rw [if_pos hcond]
      exact ⟨rfl, rfl, rfl, _, rfl⟩

/-- Witness for C9: `Number("abc")` is `NaN`, so a credit attempt with amount
"abc" sends nothing and keeps the form state. -/
theorem updateWallet_invalid_amount_no_request_witness :
    (jsIsFinite JsNum.nan = false ∨ jsLeZero JsNum.nan = true)
    ∧ (updateWallet ⟨"A1", "D1", "abc", "wallet", "n"⟩ JsNum.nan
        (some true)).requestSent = false
    ∧ (updateWallet ⟨"A1", "D1", "abc", "wallet", "n"⟩ JsNum.nan
        (some true)).walletAmount = "abc" :=
  ⟨Or.inl rfl,
   (updateWallet_invalid_amount_no_request JsNum.nan (Or.inl rfl)
      ⟨"A1", "D1", "abc", "wallet", "n"⟩ (some true)).1,
   (updateWallet_invalid_amount_no_request JsNum.nan (Or.inl rfl)
      ⟨"A1", "D1", "abc", "wallet", "n"⟩ (some true)).2.1⟩

end NovaMax
